import Mathlib

set_option autoImplicit false

/-!
Verification of the pipelined ("friday") consensus components of the
hdac-io/tendermint repository: the persistent parallel-height signer-state
store (`privval/friday_file.go`), the pipelined block validator and evidence
verification (`state` package), and the fast-sync block pool
(`blockchain/v0/friday_pool.go`).

The Go code is shallowly embedded: `int64`/`int`/`int8` become `Int`, byte
slices become lists of naturals, the `sync.Map` becomes an association list
(whose list order stands for the unspecified `Range` iteration order), and
fallible operations return explicit result types.  Functions from packages
that are not part of the sources under study (amino encodings, BLS, the
`types` package helpers) are modelled from the specification or kept as
oracle parameters; such definitions say so in their doc comments.
-/

namespace Friday

/-- Raw byte strings (`[]byte`, `cmn.HexBytes`) are modelled as lists of naturals. -/
abbrev Bytes := List Nat

/-- Modelled from the spec: canonical vote/proposal sign-bytes, i.e. the bytes
produced by `Vote.SignBytes` (types package, not in the sources).  The spec
describes them as a canonical payload plus a timestamp, with the timestamp the
sole admitted difference between re-signs; the amino encoding is injective, so
equality of encoded bytes coincides with equality of this structure. -/
structure SignBytesData where
  payload : Bytes
  timestamp : Int
deriving DecidableEq, Repr

/-- SignState stores sign info state per height
(`privval/friday_file.go`, type `SignState`). -/
structure SignState where
  round : Int
  step : Int
  signature : Option Bytes
  signBytes : Option SignBytesData
deriving DecidableEq, Repr

/-- FridayFilePVSignState stores the mutable part of the private validator
(`privval/friday_file.go`).  The `sync.Map` field `HeightSignStateMap` is
modelled as an association list from height to `SignState`; list order stands
for the (unspecified) `Range` iteration order.  The `filePath` field only
matters for file input/output and is not modelled. -/
structure FridayFilePVSignState where
  heightSignStateMap : List (Int × SignState)
  immutableHeight : Int
deriving DecidableEq, Repr

/-- `sync.Map.Load`: the entry stored at a height, if any. -/
def loadSignState (ss : FridayFilePVSignState) (height : Int) : Option SignState :=
  (ss.heightSignStateMap.find? (fun e => decide (e.1 = height))).map (fun e => e.2)

/-- `sync.Map.Store`: replace the entry at the key if present, else append. -/
def storeEntry : List (Int × SignState) → Int → SignState → List (Int × SignState)
  | [], height, s => [(height, s)]
  | e :: rest, height, s =>
      if e.1 = height then (height, s) :: rest else e :: storeEntry rest height s

/-- Outcome of `CheckHRS`: Go returns `(bool, *SignState, error)` and may panic. -/
inductive HRSOutcome where
  | panicked
  | res (reuse : Bool) (prior : Option SignState) (err : Option String)
deriving DecidableEq, Repr

/-- CheckHRS checks the given height, round, step (HRS) against the stored
state (`privval/friday_file.go`, `(*FridayFilePVSignState).CheckHRS`). -/
def CheckHRS (ss : FridayFilePVSignState) (height round step : Int) : HRSOutcome :=
  if ss.immutableHeight ≥ height then
    .res false none (some "height regression")
  else
    match loadSignState ss height with
    | some signState =>
        if signState.round > round then
          .res false none (some "round regression")
        else if signState.round = round then
          if signState.step > step then
            .res false none (some "step regression")
          else if signState.step = step then
            match signState.signBytes with
            | some _ =>
                match signState.signature with
                | none => .panicked
                | some _ => .res true (some signState) none
            | none => .res false none (some "no SignBytes found")
          else
            .res false none none
        else
          .res false none none
    | none => .res false none none

/-- StoreSignState saves signature information to the map per height
(`privval/friday_file.go`, `(*FridayFilePVSignState).storeSignState`). -/
def storeSignState (ss : FridayFilePVSignState) (height round step : Int)
    (signBytes : Option SignBytesData) (signature : Option Bytes) :
    FridayFilePVSignState :=
  { ss with
      heightSignStateMap :=
        storeEntry ss.heightSignStateMap height
          { round := round, step := step, signature := signature, signBytes := signBytes } }

/-- The `Range` loop of `setImmutableHeight`: the callback deletes the entry and
returns `true` (continue) while `ImmutableHeight > signedHeight`; on the first
entry with height at least the new watermark it returns `false`, which stops
the iteration. -/
def rangeDeleteBelow (height : Int) : List (Int × SignState) → List (Int × SignState)
  | [] => []
  | e :: rest => if height > e.1 then rangeDeleteBelow height rest else e :: rest

/-- SetImmutableHeight removes signatures lower than the target height
(`privval/friday_file.go`, `(*FridayFilePVSignState).setImmutableHeight`). -/
def setImmutableHeight (ss : FridayFilePVSignState) (height : Int) :
    Except String FridayFilePVSignState :=
  if ss.immutableHeight > height then
    .error "immutable height regression"
  else
    .ok { ss with
            immutableHeight := height,
            heightSignStateMap := rangeDeleteBelow height ss.heightSignStateMap }

/-! JSON serialization of the signer state (`privval/friday_file.go`,
`MarshalJSON` / `UnmarshalJSON`).  The Go code converts the `sync.Map` into a
`map[int64]SignState` and hands the resulting `marshalSpecializedState` to the
builtin `encoding/json` marshaler, which emits the map as a JSON object keyed
by the decimal string of each height.  The model builds the JSON tree
directly; byte-string leaves stand for the stdlib base64 (for `[]byte`) and
hex (for `cmn.HexBytes`) string encodings, both of which are injective and
round-trip. -/

/-- JSON values, as far as the signer-state file format needs them. -/
inductive Json where
  | num (i : Int)
  | byteStr (b : Bytes)
  | canonical (sb : SignBytesData)
  | obj (fields : List (Bytes × Json))

/-- Codepoints of a string literal (JSON object keys are byte strings here). -/
def strBytes (s : String) : Bytes :=
  s.toList.map Char.toNat

/-- Decimal digits of `n`, most significant first, by structural recursion on
a fuel bound (so that concrete instances evaluate inside the kernel);
faithful for `n ≤ fuel`. -/
def natToDecimalAux : Nat → Nat → Bytes
  | 0, _ => []
  | fuel + 1, n =>
      if n = 0 then [] else natToDecimalAux fuel (n / 10) ++ [48 + n % 10]

/-- Decimal digit characters of a natural number, most significant first
(`strconv.FormatInt` for non-negative input). -/
def natToDecimal (n : Nat) : Bytes :=
  if n = 0 then [48] else natToDecimalAux n n

/-- Decimal digit characters of an `int64` (`strconv.FormatInt`). -/
def intToDecimal (i : Int) : Bytes :=
  if i < 0 then 45 :: natToDecimal i.natAbs else natToDecimal i.natAbs

/-- Parse a non-empty all-digit string back into a natural number
(`strconv.ParseInt` for non-negative input, without the 64-bit bound). -/
def decimalToNat (bs : Bytes) : Option Nat :=
  if bs = [] then none
  else if bs.all (fun c => decide (48 ≤ c) && decide (c < 58)) then
    some (Nat.ofDigits 10 ((bs.map (fun c => c - 48)).reverse))
  else none

/-- Parse an optionally sign-prefixed decimal string (`strconv.ParseInt`):
an empty string fails, a leading minus sign (codepoint 45) negates the
parsed magnitude. -/
def decimalToInt (bs : Bytes) : Option Int :=
  match bs with
  | [] => none
  | c :: rest =>
      if c = 45 then (decimalToNat rest).map (fun n => -(n : Int))
      else (decimalToNat (c :: rest)).map (fun n => (n : Int))

/-- Look up a field of a JSON object by key. -/
def jLookup (fields : List (Bytes × Json)) (k : Bytes) : Option Json :=
  (fields.find? (fun f => decide (f.1 = k))).map (fun f => f.2)

/-- The `encoding/json` encoding of a `SignState` value: `round` and `step`
are plain numbers; `signature` and `signbytes` carry the `omitempty` tag,
which omits any length-zero slice — whether nil (`none` in the model) or empty
but non-nil (`some []`).  A `canonical` sign-bytes leaf stands for the raw
canonical vote/proposal encoding, which is length-prefixed and never empty, so
for the `signbytes` field omit-when-nil coincides with `omitempty`. -/
def encodeSignState (s : SignState) : Json :=
  .obj ([(strBytes "round", .num s.round), (strBytes "step", .num s.step)]
    ++ (match s.signature with
        | some sig => if sig = [] then [] else [(strBytes "signature", .byteStr sig)]
        | none => [])
    ++ (match s.signBytes with
        | some sb => [(strBytes "signbytes", .canonical sb)]
        | none => []))

/-- The `encoding/json` decoding of a `SignState` value; a missing
`omitempty` field decodes to nil. -/
def decodeSignState (j : Json) : Option SignState :=
  match j with
  | .obj fields =>
      match jLookup fields (strBytes "round") with
      | some (.num round) =>
          match jLookup fields (strBytes "step") with
          | some (.num step) =>
              match (match jLookup fields (strBytes "signature") with
                     | some (.byteStr b) => some (some b)
                     | none => some none
                     | _ => none) with
              | some signature =>
                  match (match jLookup fields (strBytes "signbytes") with
                         | some (.canonical sb) => some (some sb)
                         | none => some none
                         | _ => none) with
                  | some signBytes =>
                      some { round := round, step := step,
                             signature := signature, signBytes := signBytes }
                  | none => none
              | none => none
          | _ => none
      | _ => none
  | _ => none

/-- MarshalJSON override for using the builtin json marshaler on the
`sync.Map` field (`privval/friday_file.go`, `(*FridayFilePVSignState).MarshalJSON`):
the map is emitted as a JSON object keyed by the stringified height.  (Go's
marshaler sorts the keys; the model keeps iteration order, which changes
neither the set of fields nor the decoded result.) -/
def MarshalJSON (ss : FridayFilePVSignState) : Json :=
  .obj [(strBytes "height_sign_states",
          .obj (ss.heightSignStateMap.map
            (fun e => (intToDecimal e.1, encodeSignState e.2)))),
        (strBytes "immutable_height", .num ss.immutableHeight)]

/-- Decode the fields of the `height_sign_states` object one by one. -/
def decodeEntries : List (Bytes × Json) → Option (List (Int × SignState))
  | [] => some []
  | (k, v) :: rest =>
      match decimalToInt k with
      | some height =>
          match decodeSignState v with
          | some s =>
              match decodeEntries rest with
              | some tail => some ((height, s) :: tail)
              | none => none
          | none => none
      | none => none

/-- UnmarshalJSON override for using the builtin json marshaler
(`privval/friday_file.go`, `(*FridayFilePVSignState).UnmarshalJSON`): decode a
`marshalSpecializedState` and `Store` every decoded entry into the (fresh)
receiver's map. -/
def UnmarshalJSON (j : Json) : Option FridayFilePVSignState :=
  match j with
  | .obj fields =>
      match jLookup fields (strBytes "height_sign_states") with
      | some (.obj entryFields) =>
          match decodeEntries entryFields with
          | some entries =>
              match jLookup fields (strBytes "immutable_height") with
              | some (.num imm) =>
                  some { heightSignStateMap :=
                           entries.foldl (fun m e => storeEntry m e.1 e.2) [],
                         immutableHeight := imm }
              | _ => none
          | none => none
      | _ => none
  | _ => none

/-- Vote types relevant to the signer (`types` package, not in the sources). -/
inductive VoteType where
  | prevote
  | precommit
deriving DecidableEq, Repr

/-- Modelled from the spec: a vote as seen by the signer (types package, not in
the sources) — height, round, vote type, the canonical payload under signature
(block id, validator address, …), timestamp and signature. -/
structure Vote where
  height : Int
  round : Int
  vtype : VoteType
  blockPayload : Bytes
  timestamp : Int
  signature : Option Bytes
deriving DecidableEq, Repr

/-- Modelled from the spec: `voteToStep` (privval/file.go, not in the sources)
maps a prevote to step 2 and a precommit to step 3 (propose is step 1). -/
def voteToStep (vote : Vote) : Int :=
  match vote.vtype with
  | .prevote => 2
  | .precommit => 3

/-- Modelled from the spec: a byte tag distinguishing the vote types inside the
canonical sign-bytes. -/
def voteTypeByte (t : VoteType) : Nat :=
  match t with
  | .prevote => 1
  | .precommit => 2

/-- Modelled from the spec: `Vote.SignBytes` (types package, not in the
sources) — the canonical, timestamp-bearing sign-bytes of a vote under a chain
id. -/
def voteSignBytes (chainID : Bytes) (vote : Vote) : SignBytesData :=
  { payload :=
      chainID ++ [vote.height.natAbs, vote.round.natAbs, voteTypeByte vote.vtype]
        ++ vote.blockPayload,
    timestamp := vote.timestamp }

/-- Modelled from the spec: `checkVotesOnlyDifferByTimestamp` (privval/file.go,
not in the sources) returns the prior timestamp together with whether the two
sign-bytes agree on everything except the timestamp (per the spec: "if they
differ only in timestamp (same canonical payload otherwise)"). -/
def checkVotesOnlyDifferByTimestamp (lastSignBytes newSignBytes : SignBytesData) :
    Int × Bool :=
  (lastSignBytes.timestamp, decide (lastSignBytes.payload = newSignBytes.payload))

/-- Outcome of `signVote`: success and failure both carry the signer state
(the Go method mutates `pv` in place) and the caller's vote. -/
inductive SignVoteResult where
  | panicked
  | failure (msg : String) (ss : FridayFilePVSignState) (vote : Vote)
  | success (ss : FridayFilePVSignState) (vote : Vote)
deriving DecidableEq, Repr

/-- Persist height/round/step and signature
(`privval/friday_file.go`, `(*FridayFilePV).saveSigned`); the subsequent
`SignState.Save()` file write is the persisted state itself in this model. -/
def saveSigned (ss : FridayFilePVSignState) (height round step : Int)
    (signBytes : Option SignBytesData) (sig : Option Bytes) : FridayFilePVSignState :=
  storeSignState ss height round step signBytes sig

/-- signVote checks if the vote is good to sign and sets the vote signature
(`privval/friday_file.go`, `(*FridayFilePV).signVote`).  The private key's
`Sign` (BLS, foreign code) is the oracle parameter `signFn`. -/
def signVote (signFn : SignBytesData → Bytes) (chainID : Bytes)
    (ss : FridayFilePVSignState) (vote : Vote) : SignVoteResult :=
  let height := vote.height
  let round := vote.round
  let step := voteToStep vote
  match CheckHRS ss height round step with
  | .panicked => .panicked
  | .res sameHRS existSignState err =>
      match err with
      | some msg => .failure msg ss vote
      | none =>
          let signBytes := voteSignBytes chainID vote
          if sameHRS then
            match existSignState with
            | none => .panicked
            | some prior =>
                if prior.signBytes = some signBytes then
                  .success ss { vote with signature := prior.signature }
                else
                  match prior.signBytes with
                  | some priorSB =>
                      let tsOk := checkVotesOnlyDifferByTimestamp priorSB signBytes
                      if tsOk.2 then
                        .success ss
                          { vote with timestamp := tsOk.1, signature := prior.signature }
                      else
                        .failure "conflicting data" ss vote
                  | none => .failure "conflicting data" ss vote
          else
            let sig := signFn signBytes
            let ss2 := saveSigned ss height round step (some signBytes) (some sig)
            .success ss2 { vote with signature := some sig }

/-! Pipelined block validation (`state` package, `fridayValidateBlock` and
`VerifyEvidence`).  Helpers from packages outside the sources under study
(`types.ValidatorSet` methods, `block.ValidateFridayBasic`, `MedianTime`,
store and database loads) are kept as oracle function fields: the validator
only calls them and branches on their results. -/

/-- A validator as far as evidence verification needs it (`types` package). -/
structure Validator where
  pubKey : Bytes

/-- A commit carried in a block; its contents only flow into the oracle
functions, so the precommit entries stay abstract byte strings. -/
structure Commit where
  precommits : List (Option Bytes)

/-- A validator set, abstracted to the operations `fridayValidateBlock` and
`VerifyEvidence` invoke (`types.ValidatorSet`, not in the sources):
`Size`, `Hash`, `HasAddress`, `VerifyCommit` (chain id, block id, height,
commit; `none` means success) and `GetByAddress`. -/
structure ValidatorSet where
  size : Nat
  hash : Bytes
  hasAddress : Bytes → Bool
  verifyCommit : Bytes → Bytes → Int → Commit → Option String
  getByAddress : Bytes → Option Validator

/-- Block meta as loaded from the block store; the block id is modelled by its
hash bytes. -/
structure BlockMeta where
  blockID : Bytes
  headerTime : Int

/-- The block store, abstracted to the single load `fridayValidateBlock`
performs; `none` models a nil `*BlockMeta` (dereferencing it panics). -/
structure BlockStore where
  loadBlockMeta : Int → Option BlockMeta

/-- The state database, abstracted to the loads `fridayValidateBlock` and
`VerifyEvidence` perform: `LoadAppHash` (whose error the caller ignores),
`LoadABCIResponses` followed by `ResultsHash` (`none` models a load error, on
which the caller panics), and `LoadValidators`. -/
structure StateDB where
  loadAppHash : Int → Bytes
  loadABCIResultsHash : Int → Option Bytes
  loadValidators : Int → Except String ValidatorSet

/-- Evidence, abstracted to the interface the `state` package uses
(`types.Evidence`): `Height()`, `Address()` and `Verify(chainID, pubKey)`
(`none` means the signatures verify). -/
structure Evidence where
  height : Int
  address : Bytes
  verify : Bytes → Bytes → Option String

/-- The evidence pool, abstracted to `IsCommitted`. -/
structure EvidencePool where
  isCommitted : Evidence → Bool

/-- Consensus state as far as `fridayValidateBlock` and `VerifyEvidence` read
it.  `version` is an abstract token for `state.Version.Consensus`;
`consensusParamsHash` is `state.ConsensusParams.Hash()`; `maxNumEvidence` is
`types.MaxEvidencePerBlock(state.ConsensusParams.Block.MaxBytes)`. -/
structure State where
  version : Nat
  chainID : Bytes
  lastBlockHeight : Int
  lastBlockTime : Int
  lenULB : Int
  consensusParamsHash : Bytes
  maxEvidenceAge : Int
  maxNumEvidence : Int
  validators : ValidatorSet

/-- A proposed block, with the header fields `fridayValidateBlock` reads.
`validateFridayBasic` is the outcome of `block.ValidateFridayBasic()` (types
package, not in the sources): the structural self-consistency check, `none`
meaning success. -/
structure Block where
  version : Nat
  chainID : Bytes
  height : Int
  lastBlockID : Bytes
  lastCommit : Commit
  appHash : Bytes
  lastResultsHash : Bytes
  consensusHash : Bytes
  validatorsHash : Bytes
  nextValidatorsHash : Bytes
  time : Int
  evidence : List Evidence
  proposerAddress : Bytes
  validateFridayBasic : Option String

/-- The distinguishable error returns of `fridayValidateBlock`; dedicated Go
error types (`ErrLastBlockIDMismatch`, `ErrInvalidCommitPrecommits`,
`ErrEvidenceOverflow`, `ErrEvidenceInvalid`) get their own constructors, the
remaining `fmt.Errorf` returns are grouped by the check that produces them. -/
inductive EvidenceError where
  | tooOld (evHeight minHeight : Int)
  | loadValidatorsFailure (msg : String)
  | notValidator (addr : Bytes) (height : Int)
  | badSignature (msg : String)
deriving DecidableEq, Repr

inductive ValidationError where
  | basic (msg : String)
  | wrongVersion
  | wrongChainID
  | wrongHeight
  | lastBlockIDMismatch (got expected : Bytes)
  | wrongAppHash
  | wrongLastResultsHash
  | wrongConsensusHash
  | loadValidatorsFailure (msg : String)
  | wrongValidatorsHash
  | wrongNextValidatorsHash
  | nonEmptyPrecommits
  | invalidCommitPrecommits (expected got : Nat)
  | commitVerifyFailure (msg : String)
  | timeNotAfterULB
  | timeNotMedian
  | timeNotGenesis
  | evidenceOverflow
  | evidenceInvalid (e : EvidenceError)
  | evidenceCommitted
  | badProposer
deriving DecidableEq, Repr

/-- Outcome of block validation; `panicked` covers the nil block-meta
dereferences and the `panic` on a failed `LoadABCIResponses`. -/
inductive ValidationOutcome where
  | panicked
  | failure (e : ValidationError)
  | ok
deriving DecidableEq, Repr

/-- Short-circuit sequencing of validation stages: the first failure (or
panic) is returned. -/
def vthen (a : ValidationOutcome) (b : Unit → ValidationOutcome) : ValidationOutcome :=
  match a with
  | .ok => b ()
  | other => other

/-- `crypto.AddressSize = tmhash.TruncatedSize` (20 bytes). -/
def addressSize : Nat := 20

/-- VerifyEvidence verifies the evidence fully (`state` package,
`VerifyEvidence`): recency against `MaxAge`, membership of the accused in the
validator set at the evidence height, and the embedded signatures. -/
def VerifyEvidence (stateDB : StateDB) (state : State) (evidence : Evidence) :
    Option EvidenceError :=
  let height := state.lastBlockHeight
  let evidenceAge := height - evidence.height
  let maxAge := state.maxEvidenceAge
  if evidenceAge > maxAge then
    some (.tooOld evidence.height (height - maxAge))
  else
    match stateDB.loadValidators evidence.height with
    | .error e => some (.loadValidatorsFailure e)
    | .ok valset =>
        match valset.getByAddress evidence.address with
        | none => some (.notValidator evidence.address evidence.height)
        | some val =>
            match evidence.verify state.chainID val.pubKey with
            | some e => some (.badSignature e)
            | none => none

/-- Stage 1 of `fridayValidateBlock`: `block.ValidateFridayBasic()`. -/
def checkBasic (block : Block) : ValidationOutcome :=
  match block.validateFridayBasic with
  | some msg => .failure (.basic msg)
  | none => .ok

/-- Stage 2: version, chain id and height against the committed state. -/
def checkBasicInfo (state : State) (block : Block) : ValidationOutcome :=
  if block.version ≠ state.version then .failure .wrongVersion
  else if block.chainID ≠ state.chainID then .failure .wrongChainID
  else if block.height ≤ state.lastBlockHeight then .failure .wrongHeight
  else .ok

/-- Stage 3: the previous block id, checked only for an already committed
previous height (`prevBlockHeight > 0 && prevBlockHeight <= state.LastBlockHeight`). -/
def checkPrevBlockID (store : BlockStore) (state : State) (block : Block) :
    ValidationOutcome :=
  let prevBlockHeight := block.height - 1
  if prevBlockHeight > 0 ∧ prevBlockHeight ≤ state.lastBlockHeight then
    match store.loadBlockMeta prevBlockHeight with
    | none => .panicked
    | some prevBlockMeta =>
        if block.lastBlockID ≠ prevBlockMeta.blockID then
          .failure (.lastBlockIDMismatch block.lastBlockID prevBlockMeta.blockID)
        else .ok
  else .ok

/-- Stage 4: app hash and last-results hash against height `h − lenULB`. -/
def checkULBAppInfo (stateDB : StateDB) (state : State) (block : Block) :
    ValidationOutcome :=
  if block.height > state.lenULB then
    let ulbHeight := block.height - state.lenULB
    let ulbAppHash := stateDB.loadAppHash ulbHeight
    if block.appHash ≠ ulbAppHash then .failure .wrongAppHash
    else
      match stateDB.loadABCIResultsHash ulbHeight with
      | none => .panicked
      | some ulbResultsHash =>
          if block.lastResultsHash ≠ ulbResultsHash then .failure .wrongLastResultsHash
          else .ok
  else .ok

/-- Stage 5: consensus-parameters hash. -/
def checkConsensusHash (state : State) (block : Block) : ValidationOutcome :=
  if block.consensusHash ≠ state.consensusParamsHash then .failure .wrongConsensusHash
  else .ok

/-- Stage 6: validators hash, loaded for height 1 while `h ≤ lenULB + 1` and
for `h` itself afterwards. -/
def checkValidatorsHash (stateDB : StateDB) (state : State) (block : Block) :
    ValidationOutcome :=
  let valHeight := if block.height ≤ state.lenULB + 1 then 1 else block.height
  match stateDB.loadValidators valHeight with
  | .error e => .failure (.loadValidatorsFailure e)
  | .ok validators =>
      if block.validatorsHash ≠ validators.hash then .failure .wrongValidatorsHash
      else .ok

/-- Stage 7: next-validators hash, checked from `h ≥ lenULB + 1` on. -/
def checkNextValidatorsHash (stateDB : StateDB) (state : State) (block : Block) :
    ValidationOutcome :=
  if block.height ≥ state.lenULB + 1 then
    match stateDB.loadValidators (block.height + 1) with
    | .error e => .failure (.loadValidatorsFailure e)
    | .ok ulbNextValidators =>
        if block.nextValidatorsHash ≠ ulbNextValidators.hash then
          .failure .wrongNextValidatorsHash
        else .ok
  else .ok

/-- Stage 8: the LastCommit — empty while `h ≤ lenULB`, otherwise sized by and
verified against the validator set and block meta of height `h − lenULB`. -/
def checkLastCommit (store : BlockStore) (stateDB : StateDB) (state : State)
    (block : Block) : ValidationOutcome :=
  if block.height ≤ state.lenULB then
    if block.lastCommit.precommits.length ≠ 0 then .failure .nonEmptyPrecommits
    else .ok
  else
    match stateDB.loadValidators (block.height - state.lenULB) with
    | .error e => .failure (.loadValidatorsFailure e)
    | .ok ulbValidators =>
        if block.lastCommit.precommits.length ≠ ulbValidators.size then
          .failure (.invalidCommitPrecommits ulbValidators.size
            block.lastCommit.precommits.length)
        else
          let ulbHeight := block.height - state.lenULB
          match store.loadBlockMeta ulbHeight with
          | none => .panicked
          | some ulbBlockMeta =>
              match ulbValidators.verifyCommit state.chainID ulbBlockMeta.blockID
                  ulbHeight block.lastCommit with
              | some e => .failure (.commitVerifyFailure e)
              | none => .ok

/-- Stage 9: block time — after the ULB block time and equal to the weighted
median (`MedianTime`, not in the sources, the oracle parameter `medianTime`)
for `h > lenULB`; equal to genesis time at height 1. -/
def checkTime (store : BlockStore) (stateDB : StateDB)
    (medianTime : Commit → ValidatorSet → Int) (state : State) (block : Block) :
    ValidationOutcome :=
  if block.height > state.lenULB then
    let ulbHeight := block.height - state.lenULB
    match store.loadBlockMeta ulbHeight with
    | none => .panicked
    | some ulbBlockMeta =>
        if ¬ (block.time > ulbBlockMeta.headerTime) then .failure .timeNotAfterULB
        else
          match stateDB.loadValidators ulbHeight with
          | .error e => .failure (.loadValidatorsFailure e)
          | .ok ulbValidators =>
              if block.time ≠ medianTime block.lastCommit ulbValidators then
                .failure .timeNotMedian
              else .ok
  else if block.height = 1 then
    let genesisTime := state.lastBlockTime
    if block.time ≠ genesisTime then .failure .timeNotGenesis
    else .ok
  else .ok

/-- Stage 10: the evidence count bound. -/
def checkEvidenceCount (state : State) (block : Block) : ValidationOutcome :=
  if (block.evidence.length : Int) > state.maxNumEvidence then
    .failure .evidenceOverflow
  else .ok

/-- Stage 11: each piece of evidence is verified and must not be committed
already; the first failure is returned. -/
def checkEvidenceList (evidencePool : Option EvidencePool) (stateDB : StateDB)
    (state : State) : List Evidence → ValidationOutcome
  | [] => .ok
  | ev :: rest =>
      match VerifyEvidence stateDB state ev with
      | some e => .failure (.evidenceInvalid e)
      | none =>
          if (match evidencePool with
              | some pool => pool.isCommitted ev
              | none => false) then
            .failure .evidenceCommitted
          else checkEvidenceList evidencePool stateDB state rest

/-- Stage 12: the proposer address has canonical length and belongs to the
current validator set. -/
def checkProposer (state : State) (block : Block) : ValidationOutcome :=
  if block.proposerAddress.length ≠ addressSize ∨
      ¬ state.validators.hasAddress block.proposerAddress then
    .failure .badProposer
  else .ok

/-- fridayValidateBlock (`state` package): the pipelined block-validation
chain, stages in source order, first failure returned. -/
def fridayValidateBlock (store : BlockStore) (evidencePool : Option EvidencePool)
    (stateDB : StateDB) (medianTime : Commit → ValidatorSet → Int)
    (state : State) (block : Block) : ValidationOutcome :=
  vthen (checkBasic block) (fun _ =>
  vthen (checkBasicInfo state block) (fun _ =>
  vthen (checkPrevBlockID store state block) (fun _ =>
  vthen (checkULBAppInfo stateDB state block) (fun _ =>
  vthen (checkConsensusHash state block) (fun _ =>
  vthen (checkValidatorsHash stateDB state block) (fun _ =>
  vthen (checkNextValidatorsHash stateDB state block) (fun _ =>
  vthen (checkLastCommit store stateDB state block) (fun _ =>
  vthen (checkTime store stateDB medianTime state block) (fun _ =>
  vthen (checkEvidenceCount state block) (fun _ =>
  vthen (checkEvidenceList evidencePool stateDB state block.evidence) (fun _ =>
  checkProposer state block)))))))))))

/-! Fast-sync block pool (`blockchain/v0/friday_pool.go`). -/

/-- `FridayBlockPool`, reduced to the fields `IsCaughtUp` reads: the number of
peers, the pool height, the start time, the maximum peer height and the ULB
length returned by `ulbHandler()`.  Times are seconds. -/
structure FridayBlockPool where
  peers : Nat
  height : Int
  startTime : Int
  maxPeerHeight : Int
  ulb : Int
deriving DecidableEq, Repr

/-- IsCaughtUp returns true if this node is caught up
(`blockchain/v0/friday_pool.go`, `(*FridayBlockPool).IsCaughtUp`);
`time.Since(pool.startTime) > 5*time.Second` is `now - startTime > 5` with the
current time an explicit argument. -/
def IsCaughtUp (pool : FridayBlockPool) (now : Int) : Bool :=
  if pool.peers = 0 then
    false
  else
    let receivedBlockOrTimedOut :=
      decide (pool.height > 0) || decide (now - pool.startTime > 5)
    let ourChainIsLongestAmongPeers :=
      decide (pool.maxPeerHeight = 0) ||
        decide (pool.height ≥ pool.maxPeerHeight - pool.ulb)
    receivedBlockOrTimedOut && ourChainIsLongestAmongPeers

/-! Concrete fixtures used by witness and counterexample theorems. -/

/-- Sign-bytes of `exVote` under the empty chain id (see `voteSignBytes`). -/
def exSignBytes : SignBytesData := { payload := [5, 0, 1, 9], timestamp := 10 }

def exSignState : SignState :=
  { round := 0, step := 2, signature := some [7], signBytes := some exSignBytes }

/-- A signer state with one recorded entry: height 5, round 0, step 2. -/
def exStore5 : FridayFilePVSignState :=
  { heightSignStateMap := [(5, exSignState)], immutableHeight := 0 }

/-- A sign-state entry with sign-bytes but no signature (on-disk corruption). -/
def corruptEntry : SignState :=
  { round := 0, step := 2, signature := none, signBytes := some exSignBytes }

/-- A corrupted signer state: sign-bytes recorded without a signature. -/
def corruptStore5 : FridayFilePVSignState :=
  { heightSignStateMap := [(5, corruptEntry)], immutableHeight := 0 }

/-- A signer state whose entry carries an empty but non-nil signature
(`Signature: []byte{}` in Go). -/
def emptySigStore : FridayFilePVSignState :=
  { heightSignStateMap :=
      [(5, { round := 0, step := 2, signature := some [],
             signBytes := some exSignBytes })],
    immutableHeight := 0 }

/-- A prevote at (5, 0, step 2) whose sign-bytes under chain id `[]` are
`exSignBytes`. -/
def exVote : Vote :=
  { height := 5, round := 0, vtype := .prevote, blockPayload := [9],
    timestamp := 10, signature := none }

def exSignFn : SignBytesData → Bytes := fun _ => [42]

/-- `exVote` with a different block payload: conflicting data at (5, 0, 2). -/
def conflictVote : Vote := { exVote with blockPayload := [8] }

/-- `exVote` moved to height 6, which has no recorded sign-state. -/
def freshVote : Vote := { exVote with height := 6 }

def goodAddress : Bytes := List.replicate 20 1

def goodValidatorSet : ValidatorSet :=
  { size := 1
    hash := [7]
    hasAddress := fun a => decide (a = goodAddress)
    verifyCommit := fun _ _ _ _ => none
    getByAddress := fun a => if a = goodAddress then some { pubKey := [11] } else none }

def goodMeta : BlockMeta := { blockID := [3], headerTime := 0 }

def goodBlockStore : BlockStore := { loadBlockMeta := fun _ => some goodMeta }

def goodStateDB : StateDB :=
  { loadAppHash := fun _ => [4]
    loadABCIResultsHash := fun _ => some [5]
    loadValidators := fun _ => .ok goodValidatorSet }

def goodMedianTime : Commit → ValidatorSet → Int := fun _ _ => 5

/-- A state with pipeline depth 1 whose last committed height is 1. -/
def goodState : State :=
  { version := 0
    chainID := [9]
    lastBlockHeight := 1
    lastBlockTime := 0
    lenULB := 1
    consensusParamsHash := [6]
    maxEvidenceAge := 100
    maxNumEvidence := 10
    validators := goodValidatorSet }

/-- A block at height 2 that passes every check of `fridayValidateBlock`
against `goodState`, `goodBlockStore`, `goodStateDB` and `goodMedianTime`. -/
def goodBlock : Block :=
  { version := 0
    chainID := [9]
    height := 2
    lastBlockID := [3]
    lastCommit := { precommits := [some [8]] }
    appHash := [4]
    lastResultsHash := [5]
    consensusHash := [6]
    validatorsHash := [7]
    nextValidatorsHash := [7]
    time := 5
    evidence := []
    proposerAddress := goodAddress
    validateFridayBasic := none }

/-- Like `goodBlock` but with a previous block id that does not match the
committed meta at height 1. -/
def badPrevBlock : Block := { goodBlock with lastBlockID := [1] }

def exEvidence350 : Evidence :=
  { height := 350, address := goodAddress, verify := fun _ _ => none }

def exEvidence410 : Evidence :=
  { height := 410, address := goodAddress, verify := fun _ _ => none }

/-- `goodState` advanced to last block height 500 (evidence max age 100). -/
def evState : State := { goodState with lastBlockHeight := 500 }

/-- A pool with one peer that has not yet received a block and whose start
time is recent. -/
def cePool : FridayBlockPool :=
  { peers := 1, height := 0, startTime := 0, maxPeerHeight := 1, ulb := 1 }

/-- The invariant maintained by `storeSignState` as used from `saveSigned`:
every stored sign-state with sign-bytes also has a signature. -/
def signerInvariant (ss : FridayFilePVSignState) : Prop :=
  ∀ p ∈ ss.heightSignStateMap, p.2.signBytes.isSome → p.2.signature.isSome

/-! Helper lemmas about the signer-state store. -/

theorem loadSignState_mem {ss : FridayFilePVSignState} {height : Int} {e : SignState}
    (h : loadSignState ss height = some e) : (height, e) ∈ ss.heightSignStateMap := by
  unfold loadSignState at h
  obtain ⟨p, hp, hpe⟩ := Option.map_eq_some'.mp h
  have hkey : p.1 = height := by
    have := List.find?_some hp
    simpa using this
  have hmem := List.mem_of_find?_eq_some hp
  have : p = (height, e) := by
    cases p
    simp only at hpe hkey
    simp [hkey, hpe]
  exact this ▸ hmem

theorem storeEntry_mem {m : List (Int × SignState)} {height : Int} {s : SignState}
    {p : Int × SignState} (hp : p ∈ storeEntry m height s) :
    p = (height, s) ∨ p ∈ m := by
  induction m with
  | nil => simpa [storeEntry] using hp
  | cons e rest ih =>
      by_cases he : e.1 = height
      · simp only [storeEntry, if_pos he, List.mem_cons] at hp
        rcases hp with h | h
        · exact Or.inl h
        · exact Or.inr (List.mem_cons_of_mem _ h)
      · simp only [storeEntry, if_neg he, List.mem_cons] at hp
        rcases hp with h | h
        · exact Or.inr (h ▸ List.mem_cons_self _ _)
        · rcases ih h with h' | h'
          · exact Or.inl h'
          · exact Or.inr (List.mem_cons_of_mem _ h')

theorem checkHRS_exact {ss : FridayFilePVSignState} {h r s : Int} {prior : SignState}
    (himm : ss.immutableHeight < h)
    (hload : loadSignState ss h = some prior)
    (hround : prior.round = r) (hstep : prior.step = s)
    {sb : SignBytesData} (hsb : prior.signBytes = some sb)
    {sig : Bytes} (hsig : prior.signature = some sig) :
    CheckHRS ss h r s = .res true (some prior) none := by
  unfold CheckHRS
  rw [if_neg (by omega), hload]
  simp [hround, hstep, hsb, hsig, lt_irrefl]

theorem checkHRS_res_false_prior_none {ss : FridayFilePVSignState} {h r s : Int}
    {reuse : Bool} {p : Option SignState} {err : Option String}
    (hc : CheckHRS ss h r s = .res reuse p err) (hr : reuse = false) : p = none := by
  subst hr
  unfold CheckHRS at hc
  repeat' split at hc
  all_goals first
    | (cases hc; rfl)
    | cases hc

/-- C4: `check_hrs` rejects height regressions (h at or below the immutable
height), round regressions (stored round above r) and, within the same round,
step regressions (stored step above s); each rejection returns reuse = false
and no prior sign-state. -/
theorem checkHRS_regression_rules (ss : FridayFilePVSignState) (h r s : Int) :
    (h ≤ ss.immutableHeight →
      CheckHRS ss h r s = .res false none (some "height regression")) ∧
    (ss.immutableHeight < h →
      ∀ e, loadSignState ss h = some e →
        (r < e.round →
          CheckHRS ss h r s = .res false none (some "round regression")) ∧
        (e.round = r → s < e.step →
          CheckHRS ss h r s = .res false none (some "step regression"))) := by
  refine ⟨fun hle => ?_, fun hlt e he => ⟨fun hr => ?_, fun hreq hs => ?_⟩⟩
  · unfold CheckHRS
    rw [if_pos (by omega)]
  · unfold CheckHRS
    rw [if_neg (by omega), he]
    simp [hr]
  · unfold CheckHRS
    rw [if_neg (by omega), he]
    simp [hreq, hs]

theorem checkHRS_regression_rules_witness :
    CheckHRS exStore5 0 0 2 = .res false none (some "height regression") ∧
    CheckHRS exStore5 5 (-1) 0 = .res false none (some "round regression") ∧
    CheckHRS exStore5 5 0 1 = .res false none (some "step regression") := by
  refine ⟨(checkHRS_regression_rules exStore5 0 0 2).1 (by decide), ?_, ?_⟩
  · exact ((checkHRS_regression_rules exStore5 5 (-1) 0).2 (by decide) exSignState
      (by decide)).1 (by decide)
  · exact ((checkHRS_regression_rules exStore5 5 0 1).2 (by decide) exSignState
      (by decide)).2 (by decide) (by decide)

/-- C9: `CheckHRS` panics exactly when the entry stored at height h matches
(r, s) exactly, carries sign-bytes, but has no signature; under the invariant
that every stored entry with sign-bytes also has a signature — which
`storeSignState` maintains whenever it is given both, as `saveSigned` always
does — the panic branch is unreachable. -/
theorem checkHRS_panic_characterization (ss : FridayFilePVSignState) (h r s : Int) :
    (CheckHRS ss h r s = .panicked ↔
      (ss.immutableHeight < h ∧ ∃ e, loadSignState ss h = some e ∧ e.round = r ∧
        e.step = s ∧ e.signBytes.isSome ∧ e.signature = none)) ∧
    (signerInvariant ss → CheckHRS ss h r s ≠ .panicked) ∧
    (∀ height round step : Int, ∀ sb : SignBytesData, ∀ sig : Bytes,
      signerInvariant ss →
        signerInvariant (storeSignState ss height round step (some sb) (some sig))) := by
  have hiff : CheckHRS ss h r s = .panicked ↔
      (ss.immutableHeight < h ∧ ∃ e, loadSignState ss h = some e ∧ e.round = r ∧
        e.step = s ∧ e.signBytes.isSome ∧ e.signature = none) := by
    constructor
    · intro hc
      unfold CheckHRS at hc
      split at hc
      · exact absurd hc (by simp)
      · rename_i himm
        refine ⟨by omega, ?_⟩
        cases he : loadSignState ss h with
        | none => rw [he] at hc; exact absurd hc (by simp)
        | some e =>
            rw [he] at hc
            refine ⟨e, rfl, ?_⟩
            by_cases h1 : e.round > r
            · simp [h1] at hc
            · by_cases h2 : e.round = r
              · by_cases h3 : e.step > s
                · simp [h1, h2, h3] at hc
                · by_cases h4 : e.step = s
                  · cases hsb : e.signBytes with
                    | none => simp [h1, h2, h3, h4, hsb] at hc
                    | some sb =>
                        cases hsig : e.signature with
                        | some sg => simp [h1, h2, h3, h4, hsb, hsig] at hc
                        | none => exact ⟨h2, h4, by simp, rfl⟩
                  · simp [h1, h2, h3, h4] at hc
              · simp [h1, h2] at hc
    · rintro ⟨himm, e, he, hr, hs, hsb, hsig⟩
      obtain ⟨sb, hsb'⟩ := Option.isSome_iff_exists.mp hsb
      unfold CheckHRS
      rw [if_neg (by omega), he]
      simp [hr, hs, hsb', hsig, lt_irrefl]
  refine ⟨hiff, fun hinv hc => ?_, fun height round step sb sig hinv p hp hpsb => ?_⟩
  · obtain ⟨-, e, he, -, -, hsb, hsig⟩ := hiff.mp hc
    have := hinv _ (loadSignState_mem he) hsb
    rw [hsig] at this
    exact absurd this (by simp)
  · rcases storeEntry_mem hp with hn | hm
    · simp [hn]
    · exact hinv p hm hpsb

theorem checkHRS_panic_characterization_witness :
    CheckHRS corruptStore5 5 0 2 = .panicked ∧
    CheckHRS exStore5 5 0 2 ≠ .panicked := by
  constructor
  · exact (checkHRS_panic_characterization corruptStore5 5 0 2).1.mpr
      ⟨by decide, corruptEntry, by decide, rfl, rfl, by decide, rfl⟩
  · exact (checkHRS_panic_characterization exStore5 5 0 2).2.1
      (by unfold signerInvariant; decide)

/-! C2: the watermark advance. -/

theorem rangeDeleteBelow_eq_dropWhile (height : Int) (l : List (Int × SignState)) :
    rangeDeleteBelow height l = l.dropWhile (fun e => decide (e.1 < height)) := by
  induction l with
  | nil => rfl
  | cons e rest ih =>
      by_cases h : e.1 < height
      · simp [rangeDeleteBelow, List.dropWhile_cons, h, ih]
      · simp [rangeDeleteBelow, List.dropWhile_cons, h]

/-- C2 counterexample: with one entry recorded at height 5 and watermark 0,
`set_immutable_height 5` succeeds but the entry at height 5 — whose height is
≤ 5 — is not deleted, because the code only deletes entries with height
strictly below the new watermark. -/
theorem setImmutableHeight_claim_counterexample :
    ¬ (∀ ss2, setImmutableHeight exStore5 5 = Except.ok ss2 →
        loadSignState ss2 5 = none) := by
  intro hcl
  have h5 : setImmutableHeight exStore5 5 =
      Except.ok { heightSignStateMap := [(5, exSignState)], immutableHeight := 5 } := rfl
  have := hcl _ h5
  simp [loadSignState, exSignState] at this

/-- C2 (amended): `set_immutable_height h` fails exactly when h is strictly
below the current watermark (so the watermark is monotonically non-decreasing),
and on success it sets the watermark to h and deletes stored entries in
iteration order while their height is strictly below h, stopping at the first
entry with height at least h; in particular an entry at exactly height h
survives. -/
theorem setImmutableHeight_amended (ss : FridayFilePVSignState) (h : Int) :
    (h < ss.immutableHeight →
      setImmutableHeight ss h = .error "immutable height regression") ∧
    (ss.immutableHeight ≤ h →
      setImmutableHeight ss h =
        .ok { heightSignStateMap :=
                ss.heightSignStateMap.dropWhile (fun e => decide (e.1 < h)),
              immutableHeight := h }) := by
  constructor
  · intro hlt
    unfold setImmutableHeight
    rw [if_pos (by omega)]
  · intro hle
    unfold setImmutableHeight
    rw [if_neg (by omega), rangeDeleteBelow_eq_dropWhile]

theorem setImmutableHeight_amended_witness :
    setImmutableHeight { heightSignStateMap := [], immutableHeight := 3 } 2 =
      .error "immutable height regression" ∧
    setImmutableHeight exStore5 6 =
      .ok { heightSignStateMap := [], immutableHeight := 6 } := by
  constructor
  · exact (setImmutableHeight_amended
      { heightSignStateMap := [], immutableHeight := 3 } 2).1 (by decide)
  · have := (setImmutableHeight_amended exStore5 6).2 (by decide)
    exact this.trans (by rfl)

/-! C1 and C10: signVote. -/

/-- C1: for a vote-signing attempt at an (h, r, step) already recorded with
sign-bytes and a signature, above the immutable-height watermark (the exact
match rule of §4.1; at or below the watermark `CheckHRS` rejects with a height
regression before comparing sign-bytes): byte-for-byte equal sign-bytes reuse
the stored signature; sign-bytes differing only in timestamp reuse the stored
signature after overwriting the vote's timestamp with the stored one; any
other difference fails with the conflicting-data error, changing neither the
store nor the vote. -/
theorem signVote_sameHRS_reuse (signFn : SignBytesData → Bytes) (chainID : Bytes)
    (ss : FridayFilePVSignState) (v : Vote) (prior : SignState)
    (sb : SignBytesData) (sig : Bytes)
    (himm : ss.immutableHeight < v.height)
    (hload : loadSignState ss v.height = some prior)
    (hround : prior.round = v.round)
    (hstep : prior.step = voteToStep v)
    (hsb : prior.signBytes = some sb)
    (hsig : prior.signature = some sig) :
    (voteSignBytes chainID v = sb →
      signVote signFn chainID ss v = .success ss { v with signature := some sig }) ∧
    (sb.payload = (voteSignBytes chainID v).payload → voteSignBytes chainID v ≠ sb →
      signVote signFn chainID ss v =
        .success ss { v with timestamp := sb.timestamp, signature := some sig }) ∧
    (sb.payload ≠ (voteSignBytes chainID v).payload →
      signVote signFn chainID ss v = .failure "conflicting data" ss v) := by
  have hc : CheckHRS ss v.height v.round (voteToStep v) = .res true (some prior) none :=
    checkHRS_exact himm hload hround hstep hsb hsig
  refine ⟨fun heq => ?_, fun hpay hne => ?_, fun hpay => ?_⟩
  · simp [signVote, hc, hsb, hsig, heq]
  · have hne' : sb ≠ voteSignBytes chainID v := fun h => hne h.symm
    simp [signVote, hc, hsb, hsig, hne', checkVotesOnlyDifferByTimestamp, hpay]
  · have hne' : sb ≠ voteSignBytes chainID v := fun h => hpay (by rw [h])
    simp [signVote, hc, hsb, hsig, hne', checkVotesOnlyDifferByTimestamp, hpay]

theorem signVote_sameHRS_reuse_witness :
    signVote exSignFn [] exStore5 exVote =
      .success exStore5 { exVote with signature := some [7] } ∧
    signVote exSignFn [] exStore5 { exVote with timestamp := 11 } =
      .success exStore5 { exVote with timestamp := 10, signature := some [7] } ∧
    signVote exSignFn [] exStore5 conflictVote =
      .failure "conflicting data" exStore5 conflictVote := by
  refine ⟨?_, ?_, ?_⟩
  · exact (signVote_sameHRS_reuse exSignFn [] exStore5 exVote exSignState exSignBytes [7]
      (by decide) rfl rfl rfl rfl rfl).1 (by decide)
  · have h := (signVote_sameHRS_reuse exSignFn [] exStore5 { exVote with timestamp := 11 }
      exSignState exSignBytes [7] (by decide) rfl rfl rfl rfl rfl).2.1 (by decide) (by decide)
    exact h
  · exact (signVote_sameHRS_reuse exSignFn [] exStore5 conflictVote exSignState exSignBytes [7]
      (by decide) rfl rfl rfl rfl rfl).2.2 (by decide)

/-- C10: whenever signVote returns an error — a regression from `CheckHRS`,
missing sign-bytes, or conflicting data — the signer-state store and the
caller's vote are returned unchanged; the store changes only on the success
path for an (h, r, step) that `CheckHRS` found unrecorded, where the fresh
signature is stored (and persisted by the `Save` inside `saveSigned`) and set
on the vote. -/
theorem signVote_mutation_discipline (signFn : SignBytesData → Bytes) (chainID : Bytes)
    (ss : FridayFilePVSignState) (v : Vote) :
    (∀ msg ss2 v2, signVote signFn chainID ss v = .failure msg ss2 v2 →
      ss2 = ss ∧ v2 = v) ∧
    (∀ ss2 v2, signVote signFn chainID ss v = .success ss2 v2 →
      ss2 = ss ∨
        (CheckHRS ss v.height v.round (voteToStep v) = .res false none none ∧
         ss2 = storeSignState ss v.height v.round (voteToStep v)
                 (some (voteSignBytes chainID v))
                 (some (signFn (voteSignBytes chainID v))) ∧
         v2 = { v with signature := some (signFn (voteSignBytes chainID v)) })) := by
  constructor
  · intro msg ss2 v2 hf
    cases hc : CheckHRS ss v.height v.round (voteToStep v) with
    | panicked => simp [signVote, hc] at hf
    | res reuse prior err =>
        simp only [signVote, hc] at hf
        repeat' split at hf
        all_goals first
          | (cases hf; exact ⟨rfl, rfl⟩)
          | cases hf
  · intro ss2 v2 hs
    cases hc : CheckHRS ss v.height v.round (voteToStep v) with
    | panicked => simp [signVote, hc] at hs
    | res reuse prior err =>
        simp only [signVote, hc] at hs
        cases err with
        | some msg => cases hs
        | none =>
            cases reuse with
            | true =>
                cases prior with
                | none => cases hs
                | some prior =>
                    simp only [] at hs
                    repeat' split at hs
                    all_goals first
                      | (exact absurd trivial (by assumption))
                      | (cases hs; exact Or.inl rfl)
                      | cases hs
            | false =>
                have hp : prior = none := checkHRS_res_false_prior_none hc rfl
                subst hp
                simp only [] at hs
                cases hs
                exact Or.inr ⟨rfl, rfl, rfl⟩

theorem signVote_mutation_discipline_witness :
    (exStore5 = exStore5 ∧ conflictVote = conflictVote) ∧
    CheckHRS exStore5 6 0 2 = .res false none none := by
  constructor
  · exact (signVote_mutation_discipline exSignFn [] exStore5 conflictVote).1
      "conflicting data" exStore5 conflictVote (by rfl)
  · have h := (signVote_mutation_discipline exSignFn [] exStore5 freshVote).2
      (storeSignState exStore5 6 0 2 (some (voteSignBytes [] freshVote)) (some [42]))
      ({ freshVote with signature := some [42] }) (by rfl)
    rcases h with h | h
    · exact absurd h (by decide)
    · exact h.1

/-! C6: the fast-sync caught-up predicate. -/

/-- C6 counterexample: a pool with one peer, a recent start time and no block
received yet (local height 0) satisfies the claim's condition (one peer, and
local height at least max peer height minus ULB), yet IsCaughtUp returns
false, because the code additionally requires a received block or a five
second wait. -/
theorem isCaughtUp_claim_counterexample :
    ¬ (IsCaughtUp cePool 0 = true ↔
        (1 ≤ cePool.peers ∧ cePool.maxPeerHeight - cePool.ulb ≤ cePool.height)) := by
  decide

/-- C6 (amended): IsCaughtUp returns true exactly when the pool has at least
one peer, it has received a block (local height positive) or more than five
seconds have elapsed since start, and either no peer height is known yet (max
peer height 0) or the local height is at least the maximum peer height minus
the ULB length. -/
theorem isCaughtUp_amended (pool : FridayBlockPool) (now : Int) :
    IsCaughtUp pool now = true ↔
      (1 ≤ pool.peers ∧
       (0 < pool.height ∨ 5 < now - pool.startTime) ∧
       (pool.maxPeerHeight = 0 ∨ pool.maxPeerHeight - pool.ulb ≤ pool.height)) := by
  unfold IsCaughtUp
  by_cases hp : pool.peers = 0
  · simp [hp]
  · simp [hp, Nat.one_le_iff_ne_zero]

/-! C7: evidence age verification. -/

/-- C7: VerifyEvidence rejects evidence as too old exactly when
last_block_height − ev.height exceeds MaxAge; in the spec scenario S6
(MaxAge 100, last block height 500) evidence from height 350 is rejected as
stale while evidence from height 410 passes the age check and is accepted
when its address was a validator at 410 and its signatures verify. -/
theorem verifyEvidence_maxAge (stateDB : StateDB) (state : State) (ev : Evidence) :
    ((∃ eh mh, VerifyEvidence stateDB state ev = some (.tooOld eh mh)) ↔
      state.maxEvidenceAge < state.lastBlockHeight - ev.height) ∧
    (state.lastBlockHeight = 500 → state.maxEvidenceAge = 100 → ev.height = 350 →
      VerifyEvidence stateDB state ev = some (.tooOld 350 400)) ∧
    (state.lastBlockHeight = 500 → state.maxEvidenceAge = 100 → ev.height = 410 →
      ∀ vals val, stateDB.loadValidators 410 = .ok vals →
        vals.getByAddress ev.address = some val →
        ev.verify state.chainID val.pubKey = none →
        VerifyEvidence stateDB state ev = none) := by
  refine ⟨⟨?_, ?_⟩, fun h5 h1 h3 => ?_, fun h5 h1 h4 vals val hl hg hv => ?_⟩
  · rintro ⟨eh, mh, hve⟩
    unfold VerifyEvidence at hve
    by_cases hage : state.maxEvidenceAge < state.lastBlockHeight - ev.height
    · exact hage
    · rw [if_neg hage] at hve
      repeat' split at hve
      all_goals simp_all
  · intro hage
    refine ⟨ev.height, state.lastBlockHeight - state.maxEvidenceAge, ?_⟩
    unfold VerifyEvidence
    rw [if_pos (by omega)]
  · unfold VerifyEvidence
    rw [if_pos (by omega)]
    simp [h3, h5, h1]
  · unfold VerifyEvidence
    rw [if_neg (by omega)]
    simp [h4, hl, hg, hv]

theorem verifyEvidence_maxAge_witness :
    VerifyEvidence goodStateDB evState exEvidence350 = some (.tooOld 350 400) ∧
    VerifyEvidence goodStateDB evState exEvidence410 = none := by
  constructor
  · exact (verifyEvidence_maxAge goodStateDB evState exEvidence350).2.1 rfl rfl rfl
  · exact (verifyEvidence_maxAge goodStateDB evState exEvidence410).2.2 rfl rfl rfl
      goodValidatorSet { pubKey := [11] } rfl (by rfl) rfl

/-! C3 and C5: pipelined block validation. -/

theorem vthen_ok {a : ValidationOutcome} {b : Unit → ValidationOutcome}
    (h : vthen a b = .ok) : a = .ok ∧ b () = .ok := by
  cases a with
  | ok => exact ⟨rfl, h⟩
  | failure e => exact absurd h (by simp [vthen])
  | panicked => exact absurd h (by simp [vthen])

theorem vthen_failure {a : ValidationOutcome} {b : Unit → ValidationOutcome}
    {e : ValidationError} (h : vthen a b = .failure e) :
    a = .failure e ∨ (a = .ok ∧ b () = .failure e) := by
  cases a with
  | ok => exact Or.inr ⟨rfl, h⟩
  | failure e2 => exact Or.inl h
  | panicked => exact absurd h (by simp [vthen])

theorem checkBasic_no_mismatch {block : Block} {g e : Bytes} :
    checkBasic block ≠ .failure (.lastBlockIDMismatch g e) := by
  unfold checkBasic
  split <;> simp

theorem checkBasicInfo_no_mismatch {state : State} {block : Block} {g e : Bytes} :
    checkBasicInfo state block ≠ .failure (.lastBlockIDMismatch g e) := by
  unfold checkBasicInfo
  split_ifs <;> simp

theorem checkULBAppInfo_no_mismatch {stateDB : StateDB} {state : State} {block : Block}
    {g e : Bytes} : checkULBAppInfo stateDB state block ≠ .failure (.lastBlockIDMismatch g e) := by
  intro hx
  unfold checkULBAppInfo at hx
  try simp only [] at hx
  repeat' split at hx
  all_goals simp_all

theorem checkConsensusHash_no_mismatch {state : State} {block : Block} {g e : Bytes} :
    checkConsensusHash state block ≠ .failure (.lastBlockIDMismatch g e) := by
  unfold checkConsensusHash
  split <;> simp

theorem checkValidatorsHash_no_mismatch {stateDB : StateDB} {state : State} {block : Block}
    {g e : Bytes} :
    checkValidatorsHash stateDB state block ≠ .failure (.lastBlockIDMismatch g e) := by
  intro hx
  unfold checkValidatorsHash at hx
  try simp only [] at hx
  repeat' split at hx
  all_goals simp_all

theorem checkNextValidatorsHash_no_mismatch {stateDB : StateDB} {state : State}
    {block : Block} {g e : Bytes} :
    checkNextValidatorsHash stateDB state block ≠ .failure (.lastBlockIDMismatch g e) := by
  intro hx
  unfold checkNextValidatorsHash at hx
  try simp only [] at hx
  repeat' split at hx
  all_goals simp_all

theorem checkLastCommit_no_mismatch {store : BlockStore} {stateDB : StateDB}
    {state : State} {block : Block} {g e : Bytes} :
    checkLastCommit store stateDB state block ≠ .failure (.lastBlockIDMismatch g e) := by
  intro hx
  unfold checkLastCommit at hx
  try simp only [] at hx
  repeat' split at hx
  all_goals simp_all

theorem checkTime_no_mismatch {store : BlockStore} {stateDB : StateDB}
    {medianTime : Commit → ValidatorSet → Int} {state : State} {block : Block}
    {g e : Bytes} :
    checkTime store stateDB medianTime state block ≠ .failure (.lastBlockIDMismatch g e) := by
  intro hx
  unfold checkTime at hx
  try simp only [] at hx
  repeat' split at hx
  all_goals simp_all

theorem checkEvidenceCount_no_mismatch {state : State} {block : Block} {g e : Bytes} :
    checkEvidenceCount state block ≠ .failure (.lastBlockIDMismatch g e) := by
  unfold checkEvidenceCount
  split <;> simp

theorem checkEvidenceList_no_mismatch {evidencePool : Option EvidencePool}
    {stateDB : StateDB} {state : State} (evs : List Evidence) {g e : Bytes} :
    checkEvidenceList evidencePool stateDB state evs ≠
      .failure (.lastBlockIDMismatch g e) := by
  induction evs with
  | nil => simp [checkEvidenceList]
  | cons ev rest ih =>
      intro hx
      simp only [checkEvidenceList] at hx
      split at hx
      · simp at hx
      · split at hx
        · simp at hx
        · exact ih hx

theorem checkProposer_no_mismatch {state : State} {block : Block} {g e : Bytes} :
    checkProposer state block ≠ .failure (.lastBlockIDMismatch g e) := by
  unfold checkProposer
  split <;> simp

/-- A `LastBlockIDMismatch` failure of `fridayValidateBlock` can only come
from the previous-block-id stage. -/
theorem mismatch_only_from_prev_stage {store : BlockStore}
    {evidencePool : Option EvidencePool} {stateDB : StateDB}
    {medianTime : Commit → ValidatorSet → Int} {state : State} {block : Block}
    {g e : Bytes}
    (h : fridayValidateBlock store evidencePool stateDB medianTime state block =
      .failure (.lastBlockIDMismatch g e)) :
    checkPrevBlockID store state block = .failure (.lastBlockIDMismatch g e) := by
  unfold fridayValidateBlock at h
  rcases vthen_failure h with h1 | ⟨-, h⟩
  · exact absurd h1 checkBasic_no_mismatch
  rcases vthen_failure h with h1 | ⟨-, h⟩
  · exact absurd h1 checkBasicInfo_no_mismatch
  rcases vthen_failure h with h1 | ⟨-, h⟩
  · exact h1
  rcases vthen_failure h with h1 | ⟨-, h⟩
  · exact absurd h1 checkULBAppInfo_no_mismatch
  rcases vthen_failure h with h1 | ⟨-, h⟩
  · exact absurd h1 checkConsensusHash_no_mismatch
  rcases vthen_failure h with h1 | ⟨-, h⟩
  · exact absurd h1 checkValidatorsHash_no_mismatch
  rcases vthen_failure h with h1 | ⟨-, h⟩
  · exact absurd h1 checkNextValidatorsHash_no_mismatch
  rcases vthen_failure h with h1 | ⟨-, h⟩
  · exact absurd h1 checkLastCommit_no_mismatch
  rcases vthen_failure h with h1 | ⟨-, h⟩
  · exact absurd h1 checkTime_no_mismatch
  rcases vthen_failure h with h1 | ⟨-, h⟩
  · exact absurd h1 checkEvidenceCount_no_mismatch
  rcases vthen_failure h with h1 | ⟨-, h⟩
  · exact absurd h1 (checkEvidenceList_no_mismatch block.evidence)
  exact absurd h checkProposer_no_mismatch

/-- C3: if pipelined validation succeeds then the LastCommit obligations held:
at height at most the ULB length the precommit list is empty, and above it the
precommit count equals the size of the validator set loaded for height
h − lenULB and that set verified the commit against the stored block meta of
height h − lenULB. -/
theorem fridayValidateBlock_lastCommit_check (store : BlockStore)
    (evidencePool : Option EvidencePool) (stateDB : StateDB)
    (medianTime : Commit → ValidatorSet → Int) (state : State) (block : Block)
    (hok : fridayValidateBlock store evidencePool stateDB medianTime state block = .ok) :
    (block.height ≤ state.lenULB → block.lastCommit.precommits = []) ∧
    (state.lenULB < block.height →
      ∃ vals meta,
        stateDB.loadValidators (block.height - state.lenULB) = .ok vals ∧
        block.lastCommit.precommits.length = vals.size ∧
        store.loadBlockMeta (block.height - state.lenULB) = some meta ∧
        vals.verifyCommit state.chainID meta.blockID (block.height - state.lenULB)
          block.lastCommit = none) := by
  have hlc : checkLastCommit store stateDB state block = .ok := by
    unfold fridayValidateBlock at hok
    have h1 := vthen_ok hok
    have h2 := vthen_ok h1.2
    have h3 := vthen_ok h2.2
    have h4 := vthen_ok h3.2
    have h5 := vthen_ok h4.2
    have h6 := vthen_ok h5.2
    have h7 := vthen_ok h6.2
    exact (vthen_ok h7.2).1
  constructor
  · intro hle
    unfold checkLastCommit at hlc
    rw [if_pos hle] at hlc
    split at hlc
    · exact absurd hlc (by simp)
    · rename_i hp
      have : block.lastCommit.precommits.length = 0 := by omega
      exact List.length_eq_zero.mp this
  · intro hgt
    unfold checkLastCommit at hlc
    try simp only [] at hlc
    rw [if_neg (by omega)] at hlc
    split at hlc
    · exact absurd hlc (by simp)
    · rename_i vals hv
      split at hlc
      · exact absurd hlc (by simp)
      · rename_i hlen
        split at hlc
        · exact absurd hlc (by simp)
        · rename_i meta hm
          split at hlc
          · exact absurd hlc (by simp)
          · rename_i hvc
            exact ⟨vals, meta, hv, by omega, hm, hvc⟩

theorem fridayValidateBlock_lastCommit_check_witness :
    goodState.lenULB < goodBlock.height ∧
    (∃ vals meta,
      goodStateDB.loadValidators (goodBlock.height - goodState.lenULB) = .ok vals ∧
      goodBlock.lastCommit.precommits.length = vals.size ∧
      goodBlockStore.loadBlockMeta (goodBlock.height - goodState.lenULB) = some meta ∧
      vals.verifyCommit goodState.chainID meta.blockID (goodBlock.height - goodState.lenULB)
        goodBlock.lastCommit = none) := by
  refine ⟨by decide, ?_⟩
  exact (fridayValidateBlock_lastCommit_check goodBlockStore none goodStateDB
    goodMedianTime goodState goodBlock (by rfl)).2 (by decide)

/-- C5 counterexample: at block height 2 with last committed height 1 the
claim's condition "1 < block.height − 1" is false, so the claim asserts that
no prev-block-id comparison is made; but the code's guard is
`prevBlockHeight > 0`, the comparison does happen, and validation fails with
LastBlockIDMismatch. -/
theorem fridayValidateBlock_prevBlockID_claim_counterexample :
    ¬ (¬ (1 < badPrevBlock.height - 1 ∧
          badPrevBlock.height - 1 ≤ goodState.lastBlockHeight) →
       ∀ g e, fridayValidateBlock goodBlockStore none goodStateDB goodMedianTime
         goodState badPrevBlock ≠ .failure (.lastBlockIDMismatch g e)) := by
  intro hcl
  exact hcl (by decide) [1] [3] (by rfl)

/-- C5 (amended): the prev-block-id check against the committed block meta is
performed exactly when 0 < block.height − 1 ≤ state.last_block_height (and the
earlier structural, version, chain-id and height checks pass); whenever it is
performed and the block's LastBlockID differs from the stored meta's BlockID
at height block.height − 1, validation fails with LastBlockIDMismatch, and
outside that condition — or when the two block ids agree — validation never
returns a LastBlockIDMismatch. -/
theorem fridayValidateBlock_prevBlockID_amended (store : BlockStore)
    (evidencePool : Option EvidencePool) (stateDB : StateDB)
    (medianTime : Commit → ValidatorSet → Int) (state : State) (block : Block) :
    (checkBasic block = .ok → checkBasicInfo state block = .ok →
      0 < block.height - 1 → block.height - 1 ≤ state.lastBlockHeight →
      ∀ meta, store.loadBlockMeta (block.height - 1) = some meta →
        block.lastBlockID ≠ meta.blockID →
        fridayValidateBlock store evidencePool stateDB medianTime state block =
          .failure (.lastBlockIDMismatch block.lastBlockID meta.blockID)) ∧
    (¬ (0 < block.height - 1 ∧ block.height - 1 ≤ state.lastBlockHeight) →
      ∀ g e, fridayValidateBlock store evidencePool stateDB medianTime state block ≠
        .failure (.lastBlockIDMismatch g e)) ∧
    (∀ meta, store.loadBlockMeta (block.height - 1) = some meta →
      block.lastBlockID = meta.blockID →
      ∀ g e, fridayValidateBlock store evidencePool stateDB medianTime state block ≠
        .failure (.lastBlockIDMismatch g e)) := by
  refine ⟨fun hb hbi hpos hle meta hm hne => ?_, fun hcond g e hx => ?_,
    fun meta hm heq g e hx => ?_⟩
  · have h3 : checkPrevBlockID store state block =
        .failure (.lastBlockIDMismatch block.lastBlockID meta.blockID) := by
      unfold checkPrevBlockID
      rw [if_pos ⟨hpos, hle⟩]
      simp [hm, hne]
    unfold fridayValidateBlock
    simp [vthen, hb, hbi, h3]
  · have h3 := mismatch_only_from_prev_stage hx
    unfold checkPrevBlockID at h3
    rw [if_neg hcond] at h3
    exact absurd h3 (by simp)
  · have h3 := mismatch_only_from_prev_stage hx
    unfold checkPrevBlockID at h3
    by_cases hcond : 0 < block.height - 1 ∧ block.height - 1 ≤ state.lastBlockHeight
    · rw [if_pos hcond] at h3
      simp [hm, heq] at h3
    · rw [if_neg hcond] at h3
      exact absurd h3 (by simp)

theorem fridayValidateBlock_prevBlockID_amended_witness :
    fridayValidateBlock goodBlockStore none goodStateDB goodMedianTime goodState
      badPrevBlock = .failure (.lastBlockIDMismatch [1] [3]) ∧
    (∀ g e, fridayValidateBlock goodBlockStore none goodStateDB goodMedianTime goodState
      { goodBlock with height := 6 } ≠ .failure (.lastBlockIDMismatch g e)) := by
  constructor
  · exact (fridayValidateBlock_prevBlockID_amended goodBlockStore none goodStateDB
      goodMedianTime goodState badPrevBlock).1 rfl rfl (by decide) (by decide)
      goodMeta rfl (by decide)
  · exact (fridayValidateBlock_prevBlockID_amended goodBlockStore none goodStateDB
      goodMedianTime goodState { goodBlock with height := 6 }).2.1 (by decide)

/-! C8: JSON round-trip of the signer state. -/

theorem jLookup_nil {k : Bytes} : jLookup [] k = none := rfl

theorem jLookup_cons_self {k : Bytes} {v : Json} {rest : List (Bytes × Json)} :
    jLookup ((k, v) :: rest) k = some v := by
  unfold jLookup
  rw [List.find?_cons_of_pos _ (by simp)]
  rfl

theorem jLookup_cons_ne {k1 k : Bytes} (h : k1 ≠ k) {v : Json}
    {rest : List (Bytes × Json)} :
    jLookup ((k1, v) :: rest) k = jLookup rest k := by
  unfold jLookup
  rw [List.find?_cons_of_neg _ (by simp [h])]

theorem natToDecimalAux_eq (fuel n : Nat) (h : n ≤ fuel) :
    natToDecimalAux fuel n = ((Nat.digits 10 n).map (fun d => 48 + d)).reverse := by
  induction fuel generalizing n with
  | zero =>
      have h0 : n = 0 := by omega
      subst h0
      simp [natToDecimalAux]
  | succ fuel ih =>
      by_cases h0 : n = 0
      · subst h0
        simp [natToDecimalAux]
      · have hdiv : n / 10 ≤ fuel := by
          have := Nat.div_lt_self (Nat.pos_of_ne_zero h0) (by norm_num : 1 < 10)
          omega
        simp only [natToDecimalAux, if_neg h0, ih (n / 10) hdiv,
          Nat.digits_def' (by norm_num : (1 : Nat) < 10) (Nat.pos_of_ne_zero h0)]
        simp

theorem natToDecimal_eq (n : Nat) :
    natToDecimal n =
      if n = 0 then [48] else ((Nat.digits 10 n).map (fun d => 48 + d)).reverse := by
  unfold natToDecimal
  by_cases h0 : n = 0
  · simp [h0]
  · rw [if_neg h0, if_neg h0, natToDecimalAux_eq n n le_rfl]

theorem natToDecimal_ne_nil (n : Nat) : natToDecimal n ≠ [] := by
  rw [natToDecimal_eq]
  by_cases h0 : n = 0
  · simp [h0]
  · simp [h0, Nat.digits_ne_nil_iff_ne_zero]

theorem natToDecimal_digits {n : Nat} : ∀ c ∈ natToDecimal n, 48 ≤ c ∧ c < 58 := by
  intro c hc
  rw [natToDecimal_eq] at hc
  by_cases h0 : n = 0
  · simp [h0] at hc
    omega
  · rw [if_neg h0, List.mem_reverse, List.mem_map] at hc
    obtain ⟨d, hd, rfl⟩ := hc
    have hlt : d < 10 := Nat.digits_lt_base (by norm_num) hd
    omega

theorem decimalToNat_natToDecimal (n : Nat) : decimalToNat (natToDecimal n) = some n := by
  by_cases h0 : n = 0
  · subst h0
    decide
  · unfold decimalToNat
    rw [if_neg (natToDecimal_ne_nil n)]
    rw [if_pos (by
      rw [List.all_eq_true]
      intro c hc
      have := natToDecimal_digits c hc
      simp
      omega)]
    rw [natToDecimal_eq, if_neg h0]
    congr 1
    rw [List.map_reverse, List.reverse_reverse, List.map_map]
    have hcomp : ((fun c => c - 48) ∘ fun d => 48 + d) = id := by
      funext d
      simp
    rw [hcomp, List.map_id, Nat.ofDigits_digits]

theorem decimalToInt_intToDecimal (i : Int) : decimalToInt (intToDecimal i) = some i := by
  unfold intToDecimal
  by_cases hneg : i < 0
  · rw [if_pos hneg]
    simp only [decimalToInt]
    rw [if_pos trivial, decimalToNat_natToDecimal]
    have habs : ((i.natAbs : Nat) : Int) = -i := by omega
    simp [habs]
  · rw [if_neg hneg]
    cases hbs : natToDecimal i.natAbs with
    | nil => exact absurd hbs (natToDecimal_ne_nil _)
    | cons c rest =>
        have hc : 48 ≤ c := (natToDecimal_digits c (hbs ▸ List.mem_cons_self c rest)).1
        simp only [decimalToInt]
        rw [if_neg (by omega), ← hbs, decimalToNat_natToDecimal]
        have habs : ((i.natAbs : Nat) : Int) = i := by omega
        simp [habs]

theorem decodeSignState_encodeSignState (s : SignState)
    (hsig : s.signature ≠ some []) :
    decodeSignState (encodeSignState s) = some s := by
  have h1 : strBytes "round" ≠ strBytes "step" := by decide
  have h2 : strBytes "round" ≠ strBytes "signature" := by decide
  have h3 : strBytes "step" ≠ strBytes "signature" := by decide
  have h4 : strBytes "round" ≠ strBytes "signbytes" := by decide
  have h5 : strBytes "step" ≠ strBytes "signbytes" := by decide
  have h6 : strBytes "signature" ≠ strBytes "signbytes" := by decide
  have h7 : strBytes "signbytes" ≠ strBytes "signature" := by decide
  obtain ⟨round, step, sig, sb⟩ := s
  cases sig with
  | none =>
      cases sb <;>
        simp [encodeSignState, decodeSignState, jLookup_cons_self,
          jLookup_cons_ne h1, jLookup_cons_ne h2, jLookup_cons_ne h3,
          jLookup_cons_ne h4, jLookup_cons_ne h5, jLookup_cons_ne h6,
          jLookup_cons_ne h7, jLookup_nil]
  | some a =>
      have ha : ¬ (a = []) := fun h => hsig (by simp [h])
      cases sb <;>
        simp [encodeSignState, decodeSignState, ha, jLookup_cons_self,
          jLookup_cons_ne h1, jLookup_cons_ne h2, jLookup_cons_ne h3,
          jLookup_cons_ne h4, jLookup_cons_ne h5, jLookup_cons_ne h6,
          jLookup_cons_ne h7, jLookup_nil]

theorem decodeEntries_encode (l : List (Int × SignState))
    (hl : ∀ e ∈ l, e.2.signature ≠ some []) :
    decodeEntries (l.map (fun e => (intToDecimal e.1, encodeSignState e.2))) = some l := by
  induction l with
  | nil => rfl
  | cons e rest ih =>
      simp only [List.map_cons, decodeEntries, decimalToInt_intToDecimal,
        decodeSignState_encodeSignState e.2 (hl e (List.mem_cons_self e rest)),
        ih (fun x hx => hl x (List.mem_cons_of_mem e hx))]

theorem storeEntry_append (m : List (Int × SignState)) (h : Int) (s : SignState)
    (hnot : ∀ e ∈ m, e.1 ≠ h) : storeEntry m h s = m ++ [(h, s)] := by
  induction m with
  | nil => rfl
  | cons e rest ih =>
      have he : e.1 ≠ h := hnot e (List.mem_cons_self e rest)
      simp only [storeEntry, if_neg he, List.cons_append]
      rw [ih (fun x hx => hnot x (List.mem_cons_of_mem e hx))]

theorem foldl_storeEntry (acc l : List (Int × SignState))
    (hnd : ((acc ++ l).map Prod.fst).Nodup) :
    l.foldl (fun m e => storeEntry m e.1 e.2) acc = acc ++ l := by
  induction l generalizing acc with
  | nil => simp
  | cons e rest ih =>
      have hnd' := hnd
      rw [List.map_append, List.nodup_append] at hnd'
      have hne : ∀ p ∈ acc, p.1 ≠ e.1 := by
        intro p hp hcontra
        exact hnd'.2.2 (List.mem_map_of_mem Prod.fst hp) (by simp [hcontra])
      have hnd2 : (((acc ++ [e]) ++ rest).map Prod.fst).Nodup := by
        rw [List.append_assoc, List.singleton_append]
        exact hnd
      rw [List.foldl_cons, storeEntry_append acc e.1 e.2 hne,
        show ((e.1, e.2) : Int × SignState) = e from rfl, ih (acc ++ [e]) hnd2,
        List.append_assoc, List.singleton_append]

/-- C8 counterexample: the `omitempty` tag omits any length-zero slice, so an
empty but non-nil stored signature (`Signature: []byte{}`) is dropped by
MarshalJSON and deserializes back to nil — the round trip is not the identity
at this state, refuting the claim quantified over every FridayFilePVSignState.
(The difference is behaviorally visible: with sign-bytes present, CheckHRS
reuses a non-nil signature but panics on a nil one.) -/
theorem signStateJSON_claim_counterexample :
    UnmarshalJSON (MarshalJSON emptySigStore) =
      some { heightSignStateMap :=
               [(5, { round := 0, step := 2, signature := none,
                      signBytes := some exSignBytes })],
             immutableHeight := 0 } ∧
    ¬ (UnmarshalJSON (MarshalJSON emptySigStore) = some emptySigStore) := by
  exact ⟨by decide, by decide⟩

/-- C8 (amended): serializing a signer state with MarshalJSON — which emits
the per-height map as a JSON object keyed by the stringified height — and
then deserializing the bytes with UnmarshalJSON reproduces the same
height to (round, step, signature, sign-bytes) mapping and the same immutable
height, provided no stored signature is an empty-but-non-nil slice (such a
field is omitted by `omitempty` and comes back nil).  The hypothesis that the
stored heights are distinct is intrinsic to the Go `sync.Map`, which cannot
hold duplicate keys. -/
theorem signStateJSON_roundTrip (ss : FridayFilePVSignState)
    (hnd : (ss.heightSignStateMap.map Prod.fst).Nodup)
    (hsig : ∀ p ∈ ss.heightSignStateMap, p.2.signature ≠ some []) :
    UnmarshalJSON (MarshalJSON ss) = some ss := by
  have hk : strBytes "height_sign_states" ≠ strBytes "immutable_height" := by decide
  obtain ⟨m, imm⟩ := ss
  have hfold : m.foldl (fun acc e => storeEntry acc e.1 e.2) [] = m := by
    have := foldl_storeEntry [] m (by simpa using hnd)
    simpa using this
  simp only [MarshalJSON, UnmarshalJSON, jLookup_cons_self, jLookup_cons_ne hk,
    decodeEntries_encode m hsig, hfold]

theorem signStateJSON_roundTrip_witness :
    UnmarshalJSON (MarshalJSON exStore5) = some exStore5 :=
  signStateJSON_roundTrip exStore5 (by decide) (by decide)

end Friday
